import Mathlib

/-!
Shallow embedding of the osbuild `maintainer-tools` release scripts
(`release.py` and `pr_summaries.py`) and proofs about the claims made by
the repository's specification.

Python strings are modelled by `String` (lists of characters, which matches
Python's code-point semantics for slicing, comparison and containment);
Python `int` by `Int`; fallible Python code (exceptions) by `Option`.
Functions that in Python return either an `int` or a `str` return `PyVal`.
-/

namespace OsbuildRelease

/-- A Python value that is either an `int` or a `str`; `autoincrement_version`
in `release.py` returns values of both types depending on the branch taken. -/
inductive PyVal where
  | int (n : Int)
  | str (s : String)
deriving DecidableEq, Repr

/-! ### Python string primitives

`replaceFuel`/`splitFuel` implement Python's `str.replace` and `str.split`
(leftmost, non-overlapping occurrences of a nonempty pattern) on character
lists, using an explicit fuel argument (instantiated with the list length,
which always suffices) so that the definitions are structurally recursive
and evaluate by `decide`/`rfl`. -/

/-- One pass of Python `str.replace(pat, repl)` over a character list.
`fuel` bounds the recursion; callers pass `l.length`, which is enough
because every step consumes at least one character. -/
def replaceFuel (pat repl : List Char) : Nat → List Char → List Char
  | 0, l => l
  | _ + 1, [] => []
  | f + 1, c :: cs =>
    if pat.isPrefixOf (c :: cs) then
      repl ++ replaceFuel pat repl f (cs.drop (pat.length - 1))
    else
      c :: replaceFuel pat repl f cs

/-- Python `s.replace(pat, repl)` on character lists (nonempty `pat`). -/
def pyReplaceList (pat repl l : List Char) : List Char :=
  replaceFuel pat repl l.length l

/-- Python `s.replace(pat, repl)` (nonempty `pat`). -/
def pyReplace (pat repl s : String) : String :=
  String.mk (pyReplaceList pat.data repl.data s.data)

/-- Python `s.split(sep)` over a character list (nonempty `sep`), with fuel. -/
def splitFuel (sep : List Char) : Nat → List Char → List (List Char)
  | 0, l => [l]
  | _ + 1, [] => [[]]
  | f + 1, c :: cs =>
    if sep.isPrefixOf (c :: cs) then
      [] :: splitFuel sep f (cs.drop (sep.length - 1))
    else
      match splitFuel sep f cs with
      | [] => [[c]]
      | h :: t => (c :: h) :: t

/-- Python `s.split(sep)` on character lists (nonempty `sep`). -/
def pySplitList (sep l : List Char) : List (List Char) :=
  splitFuel sep l.length l

/-- Does `sub` occur as a contiguous sublist of `l`? -/
def containsSub (sub : List Char) : List Char → Bool
  | [] => sub.isEmpty
  | c :: cs => sub.isPrefixOf (c :: cs) || containsSub sub cs

/-- Python substring containment `sub in s` (for a nonempty `sub`). -/
def pyContains (sub s : String) : Bool :=
  containsSub sub.data s.data

/-- Decimal value of a digit-character list (the numeric core of Python `int(s)`). -/
def digitsToNat (l : List Char) : Nat :=
  l.foldl (fun acc c => 10 * acc + (c.toNat - 48)) 0

/-- Python `int(s)` on an optionally `-`-signed decimal-digit string;
`none` models the `ValueError` raised on any other input. -/
def pyIntOfString (s : String) : Option Int :=
  if s.data = [] then none
  else if s.data.head? = some '-' then
    if !s.data.tail.isEmpty && s.data.tail.all Char.isDigit then
      some (-(digitsToNat s.data.tail : Int))
    else none
  else if s.data.all Char.isDigit then
    some ((digitsToNat s.data : Int))
  else none

/-- `autoincrement_version` from `release.py` (lines 105-114): bump the
version of the latest git tag by 1.  The no-tag branch and the dotted
branch build strings, while the plain branch returns a Python `int`;
`none` models an uncaught `ValueError`/`IndexError` from `int()`.
`latest_tag[-1]` is the last character of the tag, `split(".")[0]` the
part before the first dot of the tag with every `"v"` removed. -/
def autoincrement_version (latest_tag : String) : Option PyVal :=
  if latest_tag = "" then some (.str "1")
  else if pyContains "." latest_tag then
    match latest_tag.data.getLast? with
    | none => none
    | some c =>
      match pyIntOfString (String.singleton c) with
      | none => none
      | some m =>
        some (.str (String.mk ((pySplitList ['.']
            (pyReplaceList ['v'] [] latest_tag.data)).headD [])
          ++ "." ++ toString (m + 1)))
  else
    match pyIntOfString (String.mk (pyReplaceList ['v'] [] latest_tag.data)) with
    | some n => some (.int (n + 1))
    | none => none

/-! ### Python `sorted` on strings

Python compares strings lexicographically by code point.  `pyStrLe` is that
order as a boolean on character lists; `pySorted` is an insertion sort by it.
Python's `sorted` is a stable mergesort, but on a duplicate-free list (the
only way the scripts use it, after `set(...)`) a total antisymmetric order
has a unique sorted arrangement, so insertion sort computes the same list. -/

/-- Lexicographic code-point comparison of strings, Python's `<=`. -/
def strLeB : List Char → List Char → Bool
  | [], _ => true
  | _ :: _, [] => false
  | a :: as, b :: bs => if a = b then strLeB as bs else decide (a.toNat < b.toNat)

/-- Python `s <= t` on strings. -/
def pyStrLe (s t : String) : Bool := strLeB s.data t.data

/-- Insert `x` into a `pyStrLe`-sorted list, keeping it sorted. -/
def insertSorted (x : String) : List String → List String
  | [] => [x]
  | y :: t => if pyStrLe x y then x :: y :: t else y :: insertSorted x t

/-- Python `sorted` on a list of strings (insertion sort by `pyStrLe`). -/
def pySorted : List String → List String
  | [] => []
  | x :: t => insertSorted x (pySorted t)

/-- Concatenation of a list of strings (used to state aggregation results). -/
def strConcat : List String → String
  | [] => ""
  | x :: t => x ++ strConcat t

/-- `x₁ ++ ", " ++ x₂ ++ ", " ++ ... ++ xₙ ++ ", "`: the accumulator shape
built by the contributor loops before the final `[:-2]` slice. -/
def joinTrail : List String → String
  | [] => ""
  | x :: t => x ++ ", " ++ joinTrail t

/-- Joining with `", "` and no trailing separator, as the spec words it. -/
def specJoin : List String → String
  | [] => ""
  | [x] => x
  | x :: y :: t => x ++ ", " ++ specJoin (y :: t)

/-- `get_contributors` from `release.py` (lines 218-227).  The raw
`git log --format="%an"` output is given already split on newlines (the
quote characters stripped by `replace('"', '')` never include a newline,
so stripping before or after splitting is the same); the loop appends
`name ++ ", "` for each nonempty name of `sorted(set(...))` and the final
`names[:-2]` drops the last two characters. -/
def get_contributors (lines : List String) : String :=
  let contributor_list := lines.map (fun l => pyReplace "\"" "" l)
  let names := (pySorted contributor_list.dedup).foldl
    (fun acc name => if name != "" then acc ++ name ++ ", " else acc) ""
  String.mk names.data.dropLast.dropLast

/-- `get_unreleased` from `release.py` (lines 230-242): every file of
`docs/news/<version>` is given as its `readlines()` result (lines keep
their newline terminator), in directory-listing order.  A line is picked
when it contains `"# "` anywhere (`"# " in line`) and every occurrence of
`"# "` in it is replaced by `"  * "`. -/
def get_unreleased (files : List (List String)) : String :=
  files.foldl (fun acc lines =>
    lines.foldl (fun a line =>
      if pyContains "# " line then a ++ pyReplace "# " "  * " line else a) acc) ""

/-- The directory aggregator as the claim words it: keep exactly the lines
beginning with the single heading marker `"# "` and rewrite each into a
bullet line `"  * " ++ rest`; concatenate across files in listing order. -/
def get_unreleasedSpec (files : List (List String)) : String :=
  strConcat (files.map (fun lines =>
    strConcat ((lines.filter (fun l => "# ".data.isPrefixOf l.data)).map
      (fun l => "  * " ++ String.mk (l.data.drop 2)))))

/-! ### The NEWS.md write -/

/-- The file write of `update_news` from `release.py` (lines 289-301).
The state of `NEWS.md` is `some content` when the file exists and `none`
when it is missing; the second component collects the lines printed.
The f-string is transcribed literally (the `— Location` footer keeps its
em dash); ANSI color codes are elided from messages. -/
def update_news_write (existing : Option String) (version summaries contributors todayStr : String) :
    Option String × List String :=
  match existing with
  | some content =>
      (some ("## CHANGES WITH " ++ version ++ ":\n\n"
        ++ summaries ++ "\n"
        ++ "Contributions from: " ++ contributors ++ "\n\n"
        ++ "— Location, " ++ todayStr ++ "\n\n"
        ++ content), [])
  | none => (none, ["Error: The file NEWS.md does not exist."])

/-- The prepended section as the spec enumerates it: a header line, a blank
line, the summaries block, a blank line, the contributions line, a blank
line, the signed-off footer line, a blank line.  (A line contributes its
text plus `"\n"`; a blank line contributes `"\n"`.) -/
def newsSectionSpec (version summaries contributors todayStr : String) : String :=
  ("## CHANGES WITH " ++ version ++ ":" ++ "\n") ++ "\n"
    ++ summaries ++ "\n"
    ++ ("Contributions from: " ++ contributors ++ "\n") ++ "\n"
    ++ ("— Location, " ++ todayStr ++ "\n") ++ "\n"

/-! ### The step executor -/

/-- Result of one `step` call: either the process goes on (with the list of
commands that were run, the output reported via `msg_ok`, and the Python
return value `ret`), or the whole process exits with the given code. -/
inductive StepOutcome where
  | completed (ran : List (List String)) (reported : Option String) (ret : Option String)
  | exited (code : Nat)
deriving DecidableEq, Repr

/-- `step` from `release.py` (lines 84-102).  `runCmd` is the command
runner (`run_command`), a command is its argv list, `feedback` the line
read from the operator.  On `"y"` with a primary command the command
runs; with a verify command that runs too and overwrites `out`, so
`msg_ok` reports `"\n" ++ out` for the last command run.  On `"s"`
nothing runs and `"skipped"` is returned.  Anything else exits 0. -/
def step (runCmd : List String → String) (feedback : String)
    (args verify : Option (List String)) : StepOutcome :=
  if feedback = "y" then
    match args with
    | none => .completed [] none none
    | some a =>
      match verify with
      | none => .completed [a] (some ("\n" ++ runCmd a)) none
      | some v => .completed [a, v] (some ("\n" ++ runCmd v)) none
  else if feedback = "s" then
    .completed [] none (some "skipped")
  else
    .exited 0

/-! ### The push-remote guess

`guess_remote` matches each remote URL against the Python regular
expression `github.com[/:]osbuild/<repo>.git` with `re.search`.  In that
pattern the only metacharacters are `.` (any character except a newline)
and the class `[/:]`; it is modelled as a list of pattern items. -/

/-- One item of the `origin` regular expression. -/
inductive PatItem where
  | lit (c : Char)
  | anyChar
  | slashOrColon
deriving DecidableEq

/-- Does a single pattern item match a character?  `.` in a Python regex
matches any character except a newline. -/
def patItemMatch : PatItem → Char → Bool
  | .lit c, d => c = d
  | .anyChar, d => d != '\n'
  | .slashOrColon, d => d = '/' || d = ':'

/-- Does the pattern match some prefix of the character list? -/
def patMatchFront : List PatItem → List Char → Bool
  | [], _ => true
  | _ :: _, [] => false
  | p :: ps, c :: cs => patItemMatch p c && patMatchFront ps cs

/-- Does the pattern match starting at some position (Python `re.search`)? -/
def searchAux (pat : List PatItem) : List Char → Bool
  | [] => patMatchFront pat []
  | c :: cs => patMatchFront pat (c :: cs) || searchAux pat cs

/-- Python `re.search(pat, s) is not None`. -/
def reSearch (pat : List PatItem) (s : String) : Bool :=
  searchAux pat s.data

/-- Pattern items of a regex fragment in which `.` is the only
metacharacter. -/
def regexOfString (s : String) : List PatItem :=
  s.data.map (fun c => if c = '.' then PatItem.anyChar else .lit c)

/-- The `origin` pattern of `guess_remote`: `github.com[/:]osbuild/<repo>.git`. -/
def originPattern (repo : String) : List PatItem :=
  regexOfString "github.com" ++ [PatItem.slashOrColon]
    ++ regexOfString ("osbuild/" ++ repo) ++ [PatItem.anyChar] ++ regexOfString "git"

/-- `guess_remote` from `release.py` (lines 117-129).  A remote is a pair
of its name and the URL that `git remote get-url <name>` reports.  With
more than two remotes the guess is `none`; otherwise the first remote
whose URL does not match the `origin` pattern is returned. -/
def guess_remote (repo : String) (remotes : List (String × String)) : Option String :=
  if remotes.length > 2 then none
  else remotes.findSome? (fun remote =>
    if reSearch (originPattern repo) remote.2 then none else some remote.1)

/-! ### Pagination

`list_prs_for_milestone` in `release.py` pages through a GitHub issue
search; `get_pullrequest_infos` in `pr_summaries.py` pages through the
closed-pull-request list.  The API is modelled as a function from the page
index to the response.  Both loops are written with an explicit fuel so
that a run that never hits its stop condition is the `none` value.  (The
`if not res: break` guard of the search loop never fires, because the
response is a mapping that always carries `items` and `total_count` keys
and is therefore truthy; it is dropped from the model.) -/

/-- One item of a GitHub issue-search response. -/
structure Item where
  state : String
  number : Nat
deriving DecidableEq, Repr

/-- A page of a GitHub issue-search response. -/
structure SearchPage where
  items : List Item
  total_count : Nat
deriving DecidableEq, Repr

/-- The loop of `list_prs_for_milestone` (`release.py` lines 160-179):
starting at page `i` with `count` items accumulated and the closed items
`acc` already yielded, yield the closed items of each page and stop as
soon as the accumulated item count equals the reported `total_count`. -/
def listPrsAux (pages : Nat → SearchPage) : Nat → Nat → Nat → List Item → Option (List Item)
  | 0, _, _, _ => none
  | fuel + 1, i, count, acc =>
    let res := pages i
    let acc' := acc ++ res.items.filter (fun item => item.state == "closed")
    let count' := count + res.items.length
    if count' = res.total_count then some acc'
    else listPrsAux pages fuel (i + 1) count' acc'

/-- `list_prs_for_milestone` from `release.py`: the pages are the responses
to the milestone search query, in page order starting from page 0. -/
def list_prs_for_milestone (pages : Nat → SearchPage) (fuel : Nat) : Option (List Item) :=
  listPrsAux pages fuel 0 0 []

/-- Number of items on pages `0, ..., n - 1`. -/
def prefixCount (pages : Nat → SearchPage) : Nat → Nat
  | 0 => 0
  | n + 1 => prefixCount pages n + (pages n).items.length

/-- The closed items of pages `0, ..., n - 1`, in order. -/
def closedUpTo (pages : Nat → SearchPage) : Nat → List Item
  | 0 => []
  | n + 1 => closedUpTo pages n ++ (pages n).items.filter (fun item => item.state == "closed")

/-- A pull request as `pr_summaries.py` reads it: title, body and the
number of the milestone it is attached to, if any. -/
structure PR where
  title : String
  body : String
  milestone : Option Nat
deriving DecidableEq, Repr

/-- The summary line `f"  * {pr.title}: {pr.body}\n\n"`. -/
def prSummaryLine (pr : PR) : String :=
  "  * " ++ pr.title ++ ": " ++ pr.body ++ "\n\n"

/-- The `while i <= len(prs)` loop of `get_pullrequest_infos`
(`pr_summaries.py` lines 29-46): while the condition holds, increment `i`,
fetch page `i` and append the summary of every pull request on it whose
milestone number equals `milestone`. -/
def getPrAux (pages : Nat → List PR) (milestone : Nat) :
    Nat → Nat → List PR → String → Option String
  | 0, _, _, _ => none
  | fuel + 1, i, prs, summaries =>
    if i ≤ prs.length then
      getPrAux pages milestone fuel (i + 1) (pages (i + 1))
        (summaries ++ strConcat (((pages (i + 1)).filter
          (fun pr => pr.milestone == some milestone)).map prSummaryLine))
    else some summaries

/-- `get_pullrequest_infos` from `pr_summaries.py`: `pages j` is the
response to `api.pulls.list(state="closed", page=j)`; the initial fetch
without a page argument is page 1 (the GitHub default).  Its items are
never summarized — the loop body refetches page 1 before reading any. -/
def get_pullrequest_infos (pages : Nat → List PR) (milestone : Nat) (fuel : Nat) : Option String :=
  getPrAux pages milestone fuel 0 (pages 1) ""

/-! ### Credentials handling around API steps -/

/-- Whether the whole process keeps running after an action, and with what
messages; `exited` is a `sys.exit` of the given code. -/
inductive ProcOutcome where
  | completed (messages : List String)
  | exited (code : Nat) (messages : List String)
deriving DecidableEq, Repr

/-- Does the outcome let the process continue to the next prompt? -/
def continuesProcess : ProcOutcome → Bool
  | .completed _ => true
  | .exited _ _ => false

/-- `create_pullrequest` from `release.py` (lines 326-346).  With a missing
user or token it calls `msg_error`, which prints and `sys.exit(1)`s.
`apiResult` is `some html_url` when `api.pulls.create` succeeds and `none`
when it raises (the exception text itself is external and elided);
ANSI color codes are elided from messages. -/
def create_pullrequest (user token : Option String) (base : String)
    (apiResult : Option String) : ProcOutcome :=
  if user.isNone || token.isNone then
    .exited 1
      ["Error: Missing credentials for GitHub.\n       Without a token you cannot create a pull request."]
  else
    let warn : List String :=
      if pyContains "release" base then
        ["Info: You are probably re-executing this script, trying to create a pull request"
          ++ "against a '" ++ base ++ "' (expected: 'main' or 'rhel-*').\n"
          ++ "       You may want to specifiy the base branch (--base) manually."]
      else []
    match apiResult with
    | some url => .completed (warn ++ ["OK: Pull request successfully created: " ++ url])
    | none => .exited 1 (warn ++ ["Error: Could not create pull request."])

/-- The token check at the top of `update_news_osbuild` (`release.py`
lines 247-248): a missing token only produces an info message and the
function carries on. -/
def update_news_token_check (token : Option String) : List String :=
  if token.isNone then
    ["Info: You have not passed a token so you may run into GitHub rate limiting."]
  else []

/-! ## Helper lemmas -/

theorem charToNat_injective {a b : Char} (h : a.toNat = b.toNat) : a = b := by
  rw [← Char.ofNat_toNat a, h, Char.ofNat_toNat]

theorem replaceFuel_singleton_nil (v : Char) :
    ∀ (fuel : Nat) (l : List Char), l.length ≤ fuel →
      replaceFuel [v] [] fuel l = l.filter (fun c => c != v) := by
  intro fuel
  induction fuel with
  | zero =>
    intro l hl
    have hnil : l = [] := List.eq_nil_of_length_eq_zero (Nat.le_zero.mp hl)
    subst hnil; rfl
  | succ f ih =>
    intro l hl
    match l with
    | [] => rfl
    | c :: cs =>
      have hcs : cs.length ≤ f := by
        simpa using Nat.le_of_succ_le_succ (by simpa using hl)
      by_cases hc : v = c
      · subst hc
        have hpre : [v].isPrefixOf (v :: cs) = true := by
          simp [List.isPrefixOf_cons₂]
        simp [replaceFuel, hpre, ih cs hcs]
      · have hpre : [v].isPrefixOf (c :: cs) = false := by
          simp [List.isPrefixOf_cons₂, hc]
        simp [replaceFuel, hpre, ih cs hcs, bne_iff_ne, Ne.symm hc]

theorem pyReplaceList_singleton (v : Char) (l : List Char) :
    pyReplaceList [v] [] l = l.filter (fun c => c != v) :=
  replaceFuel_singleton_nil v l.length l (Nat.le_refl _)

theorem splitFuel_ne_nil (sep : List Char) :
    ∀ (fuel : Nat) (l : List Char), splitFuel sep fuel l ≠ [] := by
  intro fuel
  induction fuel with
  | zero => intro l; simp [splitFuel]
  | succ f ih =>
    intro l
    match l with
    | [] => simp [splitFuel]
    | c :: cs =>
      by_cases hpre : sep.isPrefixOf (c :: cs)
      · simp [splitFuel, hpre]
      · simp only [splitFuel, hpre, if_false, Bool.false_eq_true]
        cases hsp : splitFuel sep f cs with
        | nil => simp
        | cons h t => simp

theorem splitFuel_singleton_headD (v : Char) :
    ∀ (fuel : Nat) (l : List Char), l.length ≤ fuel →
      (splitFuel [v] fuel l).headD [] = l.takeWhile (fun c => c != v) := by
  intro fuel
  induction fuel with
  | zero =>
    intro l hl
    have hnil : l = [] := List.eq_nil_of_length_eq_zero (Nat.le_zero.mp hl)
    subst hnil; rfl
  | succ f ih =>
    intro l hl
    match l with
    | [] => rfl
    | c :: cs =>
      have hcs : cs.length ≤ f := by
        simpa using Nat.le_of_succ_le_succ (by simpa using hl)
      by_cases hc : v = c
      · subst hc
        have hpre : [v].isPrefixOf (v :: cs) = true := by
          simp [List.isPrefixOf_cons₂]
        simp [splitFuel, hpre, List.takeWhile_cons]
      · have hpre : [v].isPrefixOf (c :: cs) = false := by
          simp [List.isPrefixOf_cons₂, hc]
        have htw : (c :: cs).takeWhile (fun c => c != v) =
            c :: cs.takeWhile (fun c => c != v) := by
          simp [List.takeWhile_cons, bne_iff_ne, Ne.symm hc]
        cases hsp : splitFuel [v] f cs with
        | nil => exact absurd hsp (splitFuel_ne_nil [v] f cs)
        | cons h t =>
          have hh : h = cs.takeWhile (fun c => c != v) := by
            have := ih cs hcs
            rw [hsp] at this
            simpa using this
          simp only [splitFuel, hpre, Bool.false_eq_true, if_false, hsp, htw, hh,
            List.headD_cons]

theorem containsSub_iff (sub : List Char) :
    ∀ l : List Char, containsSub sub l = true ↔ sub <:+: l := by
  intro l
  induction l with
  | nil => simp [containsSub, List.isEmpty_iff]
  | cons c cs ih =>
    simp [containsSub, ih, List.infix_cons_iff, List.isPrefixOf_iff_prefix,
      or_comm]

theorem pyIntOfString_digits (s : String) (h1 : s.data ≠ [])
    (h2 : s.data.all Char.isDigit = true) :
    pyIntOfString s = some ((digitsToNat s.data : Int)) := by
  cases hd : s.data with
  | nil => exact absurd hd h1
  | cons c cs =>
    have hcdig : c.isDigit = true := by
      rw [hd] at h2; simp [List.all_cons] at h2; exact h2.1
    have hcne : c ≠ '-' := by
      intro hcontra; rw [hcontra] at hcdig; exact absurd hcdig (by decide)
    rw [pyIntOfString, if_neg (by rw [hd]; simp), if_neg (by rw [hd]; simpa using hcne),
      if_pos h2, hd]

theorem getLast?_append_of_some {α : Type} {l₂ : List α} (l₁ : List α) {d : α}
    (h : l₂.getLast? = some d) : (l₁ ++ l₂).getLast? = some d := by
  rw [List.getLast?_append, h]; rfl

/-! ## Claim C1 -/

/-- Claim C1 (amended): `autoincrement_version` maps the empty tag to the
string `"1"`; a tag `"v" ++ s` with `s` a nonempty digit string to the
*integer* N + 1 where N is the decimal value of `s` (the code returns a
Python `int` in this branch, not a string); and a dotted tag
`"v" ++ major ++ "." ++ minor` whose final character is a digit `d`
(with `major` free of `v` and `.`) to the string
`major ++ "." ++ toString (d.toNat - 48 + 1)` — the new minor component
is exactly the tag's final character incremented as a digit. -/
theorem autoincrement_version_spec :
    autoincrement_version "" = some (PyVal.str "1") ∧
    (∀ s : String, s.data ≠ [] → s.data.all Char.isDigit = true →
      autoincrement_version ("v" ++ s) =
        some (PyVal.int ((digitsToNat s.data : Int) + 1))) ∧
    (∀ (major minor : String) (d : Char),
      'v' ∉ major.data → '.' ∉ major.data →
      minor.data.getLast? = some d → d.isDigit = true →
      autoincrement_version ("v" ++ major ++ "." ++ minor) =
        some (PyVal.str (major ++ "." ++ toString (d.toNat - 48 + 1)))) := by
  refine ⟨rfl, ?_, ?_⟩
  · intro s hne hdig
    have hdata : ("v" ++ s).data = 'v' :: s.data := by simp
    have hne' : ("v" ++ s) ≠ "" := by
      intro h
      have h2 := congrArg String.data h
      rw [hdata] at h2
      simp at h2
    have hmem : ('.' : Char) ∉ ('v' :: s.data) := by
      intro hm
      rcases List.mem_cons.mp hm with h | h
      · exact absurd h (by decide)
      · exact absurd (List.all_eq_true.mp hdig _ h) (by decide)
    have hnodot : pyContains "." ("v" ++ s) = false := by
      rw [pyContains, hdata]
      rw [Bool.eq_false_iff]
      intro htrue
      rcases (containsSub_iff _ _).mp htrue with ⟨t, u, htu⟩
      exact hmem (by rw [← htu]; simp)
    have hrepl : pyReplaceList ['v'] [] ('v' :: s.data) = s.data := by
      rw [pyReplaceList_singleton]
      have : s.data.filter (fun c => c != 'v') = s.data :=
        List.filter_eq_self.mpr (fun a ha => by
          have hd := List.all_eq_true.mp hdig _ ha
          simp only [bne_iff_ne, ne_eq, decide_eq_true_eq]
          intro hav
          rw [hav] at hd
          exact absurd hd (by decide))
      simp [List.filter_cons, this]
    rw [autoincrement_version, if_neg hne', if_neg (by simp [hnodot]), hdata, hrepl,
      pyIntOfString_digits (String.mk s.data) (by simpa using hne) (by simpa using hdig)]
  · intro major minor d hvmaj hdotmaj hlast hdig
    have hdata : ("v" ++ major ++ "." ++ minor).data =
        ('v' :: major.data) ++ ('.' :: minor.data) := by simp
    have hne' : ("v" ++ major ++ "." ++ minor) ≠ "" := by
      intro h
      have h2 := congrArg String.data h
      rw [hdata] at h2
      simp at h2
    have hdot : pyContains "." ("v" ++ major ++ "." ++ minor) = true := by
      rw [pyContains, containsSub_iff]
      exact ⟨'v' :: major.data, minor.data, by rw [hdata]; simp⟩
    have hlast' : ("v" ++ major ++ "." ++ minor).data.getLast? = some d := by
      rw [hdata]
      exact getLast?_append_of_some _ (by
        have := getLast?_append_of_some ['.'] hlast
        simpa using this)
    have hsingle : pyIntOfString (String.singleton d) = some ((digitsToNat [d] : Int)) := by
      have hd1 : (String.singleton d).data = [d] := by simp [String.singleton]
      rw [pyIntOfString_digits (String.singleton d) (by rw [hd1]; simp)
        (by rw [hd1]; simpa using hdig), hd1]
    have hrepl : pyReplaceList ['v'] [] (("v" ++ major ++ "." ++ minor).data) =
        major.data ++ '.' :: (minor.data.filter (fun c => c != 'v')) := by
      rw [hdata, pyReplaceList_singleton]
      have hmaj : major.data.filter (fun c => c != 'v') = major.data :=
        List.filter_eq_self.mpr (fun a ha => by
          simp only [bne_iff_ne, ne_eq, decide_eq_true_eq]
          intro hav
          rw [hav] at ha
          exact hvmaj ha)
      simp [List.filter_cons, List.filter_append, hmaj]
    have hsplit : (pySplitList ['.']
        (major.data ++ '.' :: (minor.data.filter (fun c => c != 'v')))).headD [] =
        major.data := by
      rw [pySplitList, splitFuel_singleton_headD '.' _ _ (Nat.le_refl _)]
      have hpos : ∀ a ∈ major.data, (a != '.') = true := fun a ha => by
        simp only [bne_iff_ne, ne_eq, decide_eq_true_eq]
        intro hav
        rw [hav] at ha
        exact hdotmaj ha
      rw [List.takeWhile_append_of_pos hpos]
      simp [List.takeWhile_cons]
    rw [autoincrement_version, if_neg hne', if_pos (by simp [hdot]), hlast']
    simp only [hsingle, hrepl, hsplit]
    have hdig2 : digitsToNat [d] = d.toNat - 48 := by simp [digitsToNat]
    rw [hdig2]
    rfl

/-- Claim C1 counterexample: on the tag `v31` the code yields the Python
integer `32`, not the string `"32"` the claim asserts. -/
theorem autoincrement_version_int_counterexample :
    autoincrement_version "v31" = some (PyVal.int 32) ∧
    autoincrement_version "v31" ≠ some (PyVal.str "32") := by decide

/-- Witness for C1 at the tags `v5` and `v3.1`. -/
theorem autoincrement_version_spec_witness :
    autoincrement_version ("v" ++ "5") =
      some (PyVal.int ((digitsToNat "5".data : Int) + 1)) ∧
    autoincrement_version ("v" ++ "3" ++ "." ++ "1") =
      some (PyVal.str ("3" ++ "." ++ toString ('1'.toNat - 48 + 1))) :=
  ⟨autoincrement_version_spec.2.1 "5" (by decide) (by decide),
   autoincrement_version_spec.2.2 "3" "1" '1' (by decide) (by decide) (by decide) (by decide)⟩

/-! ## Claims C6 and C10 -/

/-- Claim C6: on operator input `"y"` with a primary and a verify command
both present, both commands run and the reported output is the verify
command's output (the primary command's output is displayed nowhere); on
`"s"` nothing runs and the step returns `"skipped"`; on any other input
the whole process exits with the neutral code 0. -/
theorem step_spec :
    ∀ (runCmd : List String → String) (a v : List String) (f : String)
      (args verify : Option (List String)),
      step runCmd "y" (some a) (some v) =
        .completed [a, v] (some ("\n" ++ runCmd v)) none ∧
      step runCmd "s" args verify = .completed [] none (some "skipped") ∧
      (f ≠ "y" → f ≠ "s" → step runCmd f args verify = .exited 0) := by
  intro runCmd a v f args verify
  refine ⟨rfl, rfl, ?_⟩
  intro h1 h2
  rw [step.eq_def, if_neg h1, if_neg h2]

/-- Witness for C6 at input `"q"`. -/
theorem step_spec_witness :
    step (fun argv => String.intercalate " " argv) "q" (some ["git", "push"]) none =
      .exited 0 :=
  (step_spec (fun argv => String.intercalate " " argv) ["git", "push"] [] "q"
    (some ["git", "push"]) none).2.2 (by decide) (by decide)

/-- Claim C10: on input `"y"` with no primary command nothing is executed —
in particular the verify command, even when supplied, never runs and no
output is reported. -/
theorem step_no_primary_spec :
    ∀ (runCmd : List String → String) (verify : Option (List String)),
      step runCmd "y" none verify = .completed [] none none := by
  intro runCmd verify
  rfl

/-! ## Claims C3 and C4 -/

/-- Claim C3: writing the changelog over existing content `C` produces
exactly the spec-enumerated new section followed by `C`, and `C` is a
byte-for-byte suffix of the new content. -/
theorem update_news_prepend_spec :
    ∀ (V S K D C : String),
      update_news_write (some C) V S K D = (some (newsSectionSpec V S K D ++ C), []) ∧
      C.data <:+ (newsSectionSpec V S K D ++ C).data := by
  intro V S K D C
  refine ⟨?_, ⟨(newsSectionSpec V S K D).data, by simp⟩⟩
  have h : ("## CHANGES WITH " ++ V ++ ":\n\n"
        ++ S ++ "\n"
        ++ "Contributions from: " ++ K ++ "\n\n"
        ++ "— Location, " ++ D ++ "\n\n"
        ++ C) = newsSectionSpec V S K D ++ C := by
    apply String.ext
    simp [newsSectionSpec]
  simp only [update_news_write, h]

/-- Claim C4: when `NEWS.md` does not exist the write reports an error and
changes nothing — no file is created (the state stays `none`), and the
operation never turns a missing file into an existing one. -/
theorem update_news_missing_file :
    (∀ V S K D : String, update_news_write none V S K D =
      (none, ["Error: The file NEWS.md does not exist."])) ∧
    (∀ (st : Option String) (V S K D : String),
      (update_news_write st V S K D).1 = none ↔ st = none) := by
  constructor
  · intro V S K D; rfl
  · intro st V S K D
    cases st with
    | none => simp [update_news_write]
    | some c => simp [update_news_write]

/-- Witness for C4 at concrete arguments. -/
theorem update_news_missing_file_witness :
    update_news_write none "86" "S" "K" "2026-10-12" =
      (none, ["Error: The file NEWS.md does not exist."]) :=
  update_news_missing_file.1 "86" "S" "K" "2026-10-12"

/-! ## Claim C2 -/

theorem findSome?_guess_all_match (repo : String) :
    ∀ L : List (String × String),
      (∀ r ∈ L, reSearch (originPattern repo) r.2 = true) →
      L.findSome? (fun remote =>
        if reSearch (originPattern repo) remote.2 then none else some remote.1) = none := by
  intro L
  induction L with
  | nil => intro _; rfl
  | cons r t ih =>
    intro h
    have hr := h r (by simp)
    simp only [List.findSome?_cons, hr, if_true]
    exact ih (fun q hq => h q (by simp [hq]))

theorem findSome?_guess_first (repo : String) :
    ∀ (pre : List (String × String)) (r : String × String) (post : List (String × String)),
      (∀ q ∈ pre, reSearch (originPattern repo) q.2 = true) →
      reSearch (originPattern repo) r.2 = false →
      (pre ++ r :: post).findSome? (fun remote =>
        if reSearch (originPattern repo) remote.2 then none else some remote.1) = some r.1 := by
  intro pre
  induction pre with
  | nil =>
    intro r post _ hr
    simp [List.findSome?_cons, hr]
  | cons q t ih =>
    intro r post hpre hr
    have hq := hpre q (by simp)
    simp only [List.cons_append, List.findSome?_cons, hq, if_true]
    exact ih r post (fun p hp => hpre p (by simp [hp])) hr

/-- Claim C2: `guess_remote` returns none whenever more than two remotes
are configured; with at most two remotes it returns the first remote
whose URL does not match the `github.com[/:]osbuild/<repo>.git` search
pattern, and none when every remote's URL matches. -/
theorem guess_remote_spec :
    ∀ (repo : String) (remotes : List (String × String)),
      (2 < remotes.length → guess_remote repo remotes = none) ∧
      (remotes.length ≤ 2 →
        ((∀ r ∈ remotes, reSearch (originPattern repo) r.2 = true) →
          guess_remote repo remotes = none) ∧
        (∀ (pre : List (String × String)) (r : String × String)
            (post : List (String × String)),
          remotes = pre ++ r :: post →
          (∀ q ∈ pre, reSearch (originPattern repo) q.2 = true) →
          reSearch (originPattern repo) r.2 = false →
          guess_remote repo remotes = some r.1)) := by
  intro repo remotes
  constructor
  · intro h
    rw [guess_remote, if_pos h]
  · intro hlen
    have hnot : ¬ remotes.length > 2 := by omega
    constructor
    · intro hall
      rw [guess_remote, if_neg hnot]
      exact findSome?_guess_all_match repo remotes hall
    · intro pre r post heq hpre hr
      rw [guess_remote, if_neg hnot, heq]
      exact findSome?_guess_first repo pre r post hpre hr

/-- Witness for C2: with the upstream `origin` and a fork, the fork is
guessed. -/
theorem guess_remote_spec_witness :
    guess_remote "osbuild" [("origin", "https://github.com/osbuild/osbuild.git"),
      ("fork", "git@github.com:alice/osbuild.git")] = some "fork" :=
  ((guess_remote_spec "osbuild" [("origin", "https://github.com/osbuild/osbuild.git"),
      ("fork", "git@github.com:alice/osbuild.git")]).2 (by decide)).2
    [("origin", "https://github.com/osbuild/osbuild.git")]
    ("fork", "git@github.com:alice/osbuild.git") [] rfl (by decide) (by decide)

/-! ## Claim C9 -/

theorem foldl_if_concat (p : String → Bool) (f : String → String) :
    ∀ (lines : List String) (acc : String),
      lines.foldl (fun a l => if p l then a ++ f l else a) acc =
        acc ++ strConcat ((lines.filter p).map f) := by
  intro lines
  induction lines with
  | nil => intro acc; simp [strConcat]
  | cons l t ih =>
    intro acc
    by_cases hl : p l
    · simp only [List.foldl_cons, hl, if_true, List.filter_cons, List.map_cons, strConcat, ih]
      rw [String.append_assoc]
    · simp only [List.foldl_cons, hl, Bool.false_eq_true, if_false, List.filter_cons, ih]

theorem get_unreleased_foldl :
    ∀ (files : List (List String)) (acc : String),
      files.foldl (fun acc lines =>
        lines.foldl (fun a line =>
          if pyContains "# " line then a ++ pyReplace "# " "  * " line else a) acc) acc =
      acc ++ strConcat (files.map (fun lines =>
        strConcat ((lines.filter (fun l => pyContains "# " l)).map
          (fun l => pyReplace "# " "  * " l)))) := by
  intro files
  induction files with
  | nil => intro acc; simp [strConcat]
  | cons lines t ih =>
    intro acc
    simp only [List.foldl_cons, List.map_cons, strConcat]
    rw [foldl_if_concat, ih, String.append_assoc]

/-- Claim C9 (amended): the directory aggregator selects exactly the lines
that contain `"# "` anywhere as a substring (not only those beginning with
it), replaces every occurrence of `"# "` in a selected line by `"  * "`
(so the result starts with `"  * "` only when the line started with
`"# "`), and concatenates the rewritten lines across files in
directory-listing order. -/
theorem get_unreleased_amended :
    ∀ files : List (List String),
      get_unreleased files = strConcat (files.map (fun lines =>
        strConcat ((lines.filter (fun l => pyContains "# " l)).map
          (fun l => pyReplace "# " "  * " l)))) := by
  intro files
  rw [get_unreleased, get_unreleased_foldl, String.empty_append]

/-- Claim C9 counterexample: the line `"## Nested\n"` does not begin with
the single heading marker `"# "`, yet the code selects it and rewrites it
to `"#  * Nested\n"` (not a bullet line), while the claimed behavior
produces nothing. -/
theorem get_unreleased_counterexample :
    get_unreleased [["## Nested\n"]] = "#  * Nested\n" ∧
    get_unreleasedSpec [["## Nested\n"]] = "" ∧
    "# ".data.isPrefixOf "## Nested\n".data = false := by decide

/-! ## Claim C5 -/

theorem strLeB_total : ∀ as bs : List Char, strLeB as bs = true ∨ strLeB bs as = true := by
  intro as
  induction as with
  | nil => intro bs; left; rfl
  | cons a as1 ih =>
    intro bs
    cases bs with
    | nil => right; rfl
    | cons b bs1 =>
      by_cases hab : a = b
      · subst hab
        rcases ih bs1 with h | h
        · left; simpa [strLeB] using h
        · right; simpa [strLeB] using h
      · have hne : a.toNat ≠ b.toNat := fun h => hab (charToNat_injective h)
        rcases Nat.lt_or_ge a.toNat b.toNat with h | h
        · left; simp [strLeB, hab, h]
        · right
          have hlt : b.toNat < a.toNat := Nat.lt_of_le_of_ne h (Ne.symm hne)
          simp [strLeB, Ne.symm hab, hlt]

theorem strLeB_trans : ∀ as bs cs : List Char,
    strLeB as bs = true → strLeB bs cs = true → strLeB as cs = true := by
  intro as
  induction as with
  | nil => intro bs cs _ _; rfl
  | cons a as1 ih =>
    intro bs cs hab hbc
    cases bs with
    | nil => simp [strLeB] at hab
    | cons b bs1 =>
      cases cs with
      | nil => simp [strLeB] at hbc
      | cons c cs1 =>
        by_cases h1 : a = b
        · subst h1
          rw [strLeB, if_pos rfl] at hab
          by_cases h2 : a = c
          · subst h2
            rw [strLeB, if_pos rfl] at hbc ⊢
            exact ih bs1 cs1 hab hbc
          · rw [strLeB, if_neg h2] at hbc ⊢
            exact hbc
        · rw [strLeB, if_neg h1] at hab
          have hab' : a.toNat < b.toNat := by simpa using hab
          by_cases h2 : b = c
          · subst h2
            have h3 : a ≠ b := h1
            rw [strLeB, if_neg h3]
            simpa using hab'
          · rw [strLeB, if_neg h2] at hbc
            have hbc' : b.toNat < c.toNat := by simpa using hbc
            have hac : a.toNat < c.toNat := Nat.lt_trans hab' hbc'
            have h3 : a ≠ c := by
              intro hcontra
              rw [hcontra] at hac
              exact absurd hac (Nat.lt_irrefl _)
            rw [strLeB, if_neg h3]
            simpa using hac

theorem pyStrLe_total (a b : String) : pyStrLe a b = true ∨ pyStrLe b a = true :=
  strLeB_total a.data b.data

theorem pyStrLe_trans {a b c : String} (h1 : pyStrLe a b = true) (h2 : pyStrLe b c = true) :
    pyStrLe a c = true :=
  strLeB_trans a.data b.data c.data h1 h2

theorem mem_insertSorted (x : String) :
    ∀ (l : List String) (y : String), y ∈ insertSorted x l ↔ y = x ∨ y ∈ l := by
  intro l
  induction l with
  | nil => intro y; simp [insertSorted]
  | cons z t ih =>
    intro y
    by_cases h : pyStrLe x z
    · simp [insertSorted, h]
    · simp only [insertSorted, h, Bool.false_eq_true, if_false, List.mem_cons, ih]
      tauto

theorem perm_insertSorted (x : String) :
    ∀ l : List String, List.Perm (insertSorted x l) (x :: l) := by
  intro l
  induction l with
  | nil => exact List.Perm.refl _
  | cons z t ih =>
    by_cases h : pyStrLe x z
    · simp only [insertSorted, h, if_true]
      exact List.Perm.refl _
    · simp only [insertSorted, h, Bool.false_eq_true, if_false]
      exact List.Perm.trans (List.Perm.cons z ih) (List.Perm.swap' x z (List.Perm.refl t))

theorem perm_pySorted : ∀ l : List String, List.Perm (pySorted l) l := by
  intro l
  induction l with
  | nil => exact List.Perm.refl _
  | cons x t ih =>
    exact List.Perm.trans (perm_insertSorted x (pySorted t)) (List.Perm.cons x ih)

theorem pairwise_insertSorted (x : String) :
    ∀ l : List String, l.Pairwise (fun a b => pyStrLe a b = true) →
      (insertSorted x l).Pairwise (fun a b => pyStrLe a b = true) := by
  intro l
  induction l with
  | nil => intro _; simp [insertSorted]
  | cons z t ih =>
    intro hp
    rcases List.pairwise_cons.mp hp with ⟨hz, ht⟩
    by_cases h : pyStrLe x z
    · simp only [insertSorted, h, if_true]
      refine List.pairwise_cons.mpr ⟨?_, hp⟩
      intro b hb
      rcases List.mem_cons.mp hb with rfl | hbt
      · exact h
      · exact pyStrLe_trans h (hz b hbt)
    · simp only [insertSorted, h, Bool.false_eq_true, if_false]
      refine List.pairwise_cons.mpr ⟨?_, ih ht⟩
      intro b hb
      rcases (mem_insertSorted x t b).mp hb with rfl | hbt
      · rcases pyStrLe_total b z with h1 | h1
        · exact absurd h1 (by simpa using h)
        · exact h1
      · exact hz b hbt

theorem pairwise_pySorted : ∀ l : List String,
    (pySorted l).Pairwise (fun a b => pyStrLe a b = true) := by
  intro l
  induction l with
  | nil => simp [pySorted]
  | cons x t ih => exact pairwise_insertSorted x (pySorted t) ih

theorem foldl_contrib :
    ∀ (L : List String) (acc : String),
      L.foldl (fun acc name => if name != "" then acc ++ name ++ ", " else acc) acc =
        acc ++ joinTrail (L.filter (fun n => n != "")) := by
  intro L
  induction L with
  | nil => intro acc; simp [joinTrail]
  | cons n t ih =>
    intro acc
    by_cases hn : n != ""
    · simp only [List.foldl_cons, hn, if_true, List.filter_cons, joinTrail, ih]
      simp [String.append_assoc]
    · simp only [List.foldl_cons, hn, Bool.false_eq_true, if_false, List.filter_cons, ih]

theorem joinTrail_length_ge (x : String) (t : List String) :
    2 ≤ (joinTrail (x :: t)).data.length := by
  show 2 ≤ ((x ++ ", " ++ joinTrail t)).data.length
  simp only [String.data_append, List.length_append]
  have h2 : ((", " : String).data).length = 2 := rfl
  have h3 : ([',', ' '] : List Char).length = 2 := rfl
  omega

theorem dropTwo_joinTrail : ∀ l : List String,
    String.mk (joinTrail l).data.dropLast.dropLast = specJoin l := by
  intro l
  induction l with
  | nil => rfl
  | cons x t ih =>
    cases t with
    | nil =>
      show String.mk ((x ++ ", " ++ "").data.dropLast.dropLast) = x
      apply String.ext
      simp only [String.data_append]
      have h : x.data ++ ", ".data ++ "".data = (x.data ++ [',']) ++ [' '] := by simp
      rw [h, List.dropLast_concat, List.dropLast_concat]
    | cons y t2 =>
      show String.mk ((x ++ ", " ++ joinTrail (y :: t2)).data.dropLast.dropLast) =
        x ++ ", " ++ specJoin (y :: t2)
      apply String.ext
      have hlen := joinTrail_length_ge y t2
      have hne1 : (joinTrail (y :: t2)).data ≠ [] := by
        intro hc; rw [hc] at hlen; simp at hlen
      have hne2 : (joinTrail (y :: t2)).data.dropLast ≠ [] := by
        apply List.ne_nil_of_length_pos
        rw [List.length_dropLast]
        omega
      simp only [String.data_append]
      rw [List.dropLast_append_of_ne_nil _ hne1, List.dropLast_append_of_ne_nil _ hne2]
      have hih : (joinTrail (y :: t2)).data.dropLast.dropLast = (specJoin (y :: t2)).data :=
        congrArg String.data ih
      rw [hih]

/-- Claim C5: `get_contributors` strips the quoting, drops empty entries,
removes duplicates, orders lexicographically (by code point, Python's
string order) and joins with `", "` and no trailing separator; on
`["Bob", "Alice", "Bob", ""]` it returns exactly `"Alice, Bob"`. -/
theorem get_contributors_spec :
    (∀ lines : List String,
      get_contributors lines =
        specJoin (((pySorted (lines.map (fun l => pyReplace "\"" "" l)).dedup)).filter
          (fun n => n != "")) ∧
      ((pySorted (lines.map (fun l => pyReplace "\"" "" l)).dedup).filter
          (fun n => n != "")).Pairwise (fun a b => pyStrLe a b = true) ∧
      ((pySorted (lines.map (fun l => pyReplace "\"" "" l)).dedup).filter
          (fun n => n != "")).Nodup ∧
      (∀ x : String,
        x ∈ (pySorted (lines.map (fun l => pyReplace "\"" "" l)).dedup).filter
          (fun n => n != "") ↔
        x ≠ "" ∧ x ∈ lines.map (fun l => pyReplace "\"" "" l))) ∧
    get_contributors ["Bob", "Alice", "Bob", ""] = "Alice, Bob" := by
  constructor
  · intro lines
    refine ⟨?_, ?_, ?_, ?_⟩
    · simp only [get_contributors]
      rw [foldl_contrib, String.empty_append, dropTwo_joinTrail]
    · exact (pairwise_pySorted _).filter _
    · exact ((perm_pySorted _).nodup_iff.mpr (List.nodup_dedup _)).filter _
    · intro x
      rw [List.mem_filter, (perm_pySorted _).mem_iff, List.mem_dedup]
      simp [bne_iff_ne, and_comm]
  · decide

/-- Witness for C5 on the raw author lines of the claim's example. -/
theorem get_contributors_spec_witness :
    get_contributors ["Bob", "Alice", "Bob", ""] = "Alice, Bob" :=
  get_contributors_spec.2

/-! ## Claim C7 -/

theorem listPrsAux_reaches (pages : Nat → SearchPage) (T : Nat)
    (hT : ∀ k, (pages k).total_count = T) :
    ∀ (fuel i : Nat),
      (∃ nn, i ≤ nn ∧ nn < i + fuel ∧ prefixCount pages (nn + 1) = T) →
      ∃ m, i ≤ m ∧ prefixCount pages (m + 1) = T ∧
        (∀ k, i ≤ k → k < m → prefixCount pages (k + 1) ≠ T) ∧
        listPrsAux pages fuel i (prefixCount pages i) (closedUpTo pages i) =
          some (closedUpTo pages (m + 1)) := by
  intro fuel
  induction fuel with
  | zero =>
    intro i hex
    obtain ⟨nn, h1, h2, _⟩ := hex
    omega
  | succ f ih =>
    intro i hex
    have hc : prefixCount pages i + (pages i).items.length = prefixCount pages (i + 1) := rfl
    have ha : closedUpTo pages i ++ (pages i).items.filter (fun item => item.state == "closed") =
        closedUpTo pages (i + 1) := rfl
    by_cases hstop : prefixCount pages (i + 1) = T
    · refine ⟨i, Nat.le_refl i, hstop, by omega, ?_⟩
      simp only [listPrsAux]
      rw [hT i, hc, ha, if_pos hstop]
    · obtain ⟨nn, hnn1, hnn2, hnn3⟩ := hex
      have hne : nn ≠ i := fun h => hstop (h ▸ hnn3)
      obtain ⟨m, hm1, hm2, hm3, hm4⟩ :=
        ih (i + 1) ⟨nn, by omega, by omega, hnn3⟩
      refine ⟨m, by omega, hm2, ?_, ?_⟩
      · intro k hk1 hk2
        rcases Nat.eq_or_lt_of_le hk1 with h | h
        · rw [← h]; exact hstop
        · exact hm3 k h hk2
      · simp only [listPrsAux]
        rw [hT i, hc, ha, if_neg hstop]
        exact hm4

theorem mem_closedUpTo (pages : Nat → SearchPage) :
    ∀ (k j : Nat), j < k → ∀ it ∈ (pages j).items, it.state = "closed" →
      it ∈ closedUpTo pages k := by
  intro k
  induction k with
  | zero => intro j h; omega
  | succ n ih =>
    intro j hj it hmem hstate
    rw [closedUpTo]
    rcases Nat.lt_succ_iff_lt_or_eq.mp hj with h | h
    · exact List.mem_append_left _ (ih j h it hmem hstate)
    · subst h
      exact List.mem_append_right _ (List.mem_filter.mpr ⟨hmem, by simp [hstate]⟩)

theorem getPrAux_halts (pages : Nat → List PR) (milestone m : Nat)
    (hm : 1 ≤ m) (hempty : pages m = []) :
    ∀ (fuel j : Nat) (s : String), 1 ≤ j → j ≤ m → m - j < fuel →
      ∃ out, getPrAux pages milestone fuel j (pages j) s = some out := by
  intro fuel
  induction fuel with
  | zero => intro j s _ _ h; omega
  | succ f ih =>
    intro j s hj1 hjm hfuel
    by_cases hcond : j ≤ (pages j).length
    · have hjm' : j < m := by
        rcases Nat.eq_or_lt_of_le hjm with h | h
        · exfalso
          subst h
          rw [hempty] at hcond
          simp at hcond
          omega
        · exact h
      simp only [getPrAux]
      rw [if_pos hcond]
      exact ih (j + 1) _ (by omega) (by omega) (by omega)
    · refine ⟨s, ?_⟩
      simp only [getPrAux]
      rw [if_neg hcond]

/-- Claim C7: the milestone-search pagination halts as soon as the
accumulated item count reaches the stable API-reported total, returning
every closed item of the pages it visited; the page-by-page closed-PR
listing halts once an out-of-range page comes back empty. -/
theorem pagination_terminates :
    (∀ (pages : Nat → SearchPage) (T n fuel : Nat),
      (∀ k, (pages k).total_count = T) →
      prefixCount pages (n + 1) = T →
      n < fuel →
      ∃ m, m ≤ n ∧
        list_prs_for_milestone pages fuel = some (closedUpTo pages (m + 1)) ∧
        prefixCount pages (m + 1) = T ∧
        ∀ j, j ≤ m → ∀ it ∈ (pages j).items, it.state = "closed" →
          it ∈ closedUpTo pages (m + 1)) ∧
    (∀ (pages2 : Nat → List PR) (milestone m fuel : Nat),
      1 ≤ m → pages2 m = [] → m < fuel →
      ∃ s, get_pullrequest_infos pages2 milestone fuel = some s) := by
  constructor
  · intro pages T n fuel hT hreach hfuel
    obtain ⟨m, hm0, hmT, hmin, hrun⟩ :=
      listPrsAux_reaches pages T hT fuel 0 ⟨n, by omega, by omega, hreach⟩
    have hmn : m ≤ n := by
      by_contra hcontra
      push_neg at hcontra
      exact hmin n (by omega) hcontra hreach
    refine ⟨m, hmn, ?_, hmT, ?_⟩
    · rw [list_prs_for_milestone]
      have h0 : prefixCount pages 0 = 0 := rfl
      have h1 : closedUpTo pages 0 = ([] : List Item) := rfl
      rw [← h0, ← h1]
      exact hrun
    · intro j hj it hmem hstate
      exact mem_closedUpTo pages (m + 1) j (by omega) it hmem hstate
  · intro pages2 milestone m fuel hm hempty hfuel
    obtain ⟨f, rfl⟩ : ∃ f, fuel = f + 1 := ⟨fuel - 1, by omega⟩
    rw [get_pullrequest_infos]
    simp only [getPrAux]
    rw [if_pos (Nat.zero_le (pages2 1).length)]
    exact getPrAux_halts pages2 milestone m hm hempty f (0 + 1) _ (by omega) (by omega)
      (by omega)

/-- Witness for C7: a one-page API whose total is reached on page 0, and a
closed-PR list whose page 1 is empty. -/
theorem pagination_terminates_witness :
    (∃ m, m ≤ 0 ∧
      list_prs_for_milestone (fun _ => ⟨[⟨"closed", 0⟩], 1⟩) 1 =
        some (closedUpTo (fun _ => ⟨[⟨"closed", 0⟩], 1⟩) (m + 1)) ∧
      prefixCount (fun _ => ⟨[⟨"closed", 0⟩], 1⟩) (m + 1) = 1 ∧
      ∀ j, j ≤ m → ∀ it ∈ ((fun (_ : Nat) => SearchPage.mk [⟨"closed", 0⟩] 1) j).items,
        it.state = "closed" →
        it ∈ closedUpTo (fun _ => ⟨[⟨"closed", 0⟩], 1⟩) (m + 1)) ∧
    (∃ s, get_pullrequest_infos (fun _ => []) 7 2 = some s) :=
  ⟨pagination_terminates.1 (fun _ => ⟨[⟨"closed", 0⟩], 1⟩) 1 0 1 (fun _ => rfl) rfl
      (by decide),
   pagination_terminates.2 (fun _ => []) 7 1 2 (by decide) rfl (by decide)⟩

/-! ## Claim C8 -/

/-- Claim C8 counterexample: accepting the create-pull-request step with
missing credentials does not merely abort that step — `msg_error` exits
the whole process with code 1, so it never continues to the next prompt. -/
theorem create_pullrequest_counterexample :
    create_pullrequest none none "main" (some "https://github.com/osbuild/osbuild/pull/1") =
      .exited 1
        ["Error: Missing credentials for GitHub.\n       Without a token you cannot create a pull request."] ∧
    continuesProcess (create_pullrequest none none "main"
      (some "https://github.com/osbuild/osbuild/pull/1")) = false := by decide

/-- Claim C8 (amended): accepting the create-pull-request step while the
user or token is missing exits the whole process immediately with code 1
and a pointed credentials message — it does not continue to the next
prompt; only the news-gathering step treats a missing token as advisory,
printing an info message and carrying on. -/
theorem create_pullrequest_missing_creds :
    (∀ (user token : Option String) (base : String) (apiResult : Option String),
      user = none ∨ token = none →
      create_pullrequest user token base apiResult =
        .exited 1
          ["Error: Missing credentials for GitHub.\n       Without a token you cannot create a pull request."] ∧
      continuesProcess (create_pullrequest user token base apiResult) = false) ∧
    update_news_token_check none =
      ["Info: You have not passed a token so you may run into GitHub rate limiting."] := by
  constructor
  · intro user token base apiResult h
    have hcond : (user.isNone || token.isNone) = true := by
      rcases h with h | h <;> simp [h]
    constructor
    · simp only [create_pullrequest, hcond, if_true]
    · simp only [create_pullrequest, hcond, if_true, continuesProcess]
  · rfl

/-- Witness for C8 with a missing user. -/
theorem create_pullrequest_missing_creds_witness :
    create_pullrequest none (some "token") "main" none =
      .exited 1
        ["Error: Missing credentials for GitHub.\n       Without a token you cannot create a pull request."] ∧
    continuesProcess (create_pullrequest none (some "token") "main" none) = false :=
  create_pullrequest_missing_creds.1 none (some "token") "main" none (Or.inl rfl)

end OsbuildRelease
